import Mathlib

/-!
Verification of the icap-client library core (Go package `icapclient`).

Byte strings of the Go source are embedded as `List Char` (all the protocol
constants and inputs involved are ASCII, so `Char` is a faithful image of a
Go byte here).  Pure helper functions of the source are translated one to
one; fallible code (Go panics and returned errors) becomes `Option` /
`Except`.  External collaborators (the `net/http` dumper and parsers, the
TCP socket) enter the model as explicit parameters, since their code is not
part of this repository.
-/

set_option maxRecDepth 16384
set_option maxHeartbeats 1000000

namespace IcapClient

/-- Constant `crlf = "\r\n"` of the source. -/
def crlf : List Char := "\r\n".data

/-- Constant `doubleCRLF = "\r\n\r\n"` of the source. -/
def doubleCRLF : List Char := "\r\n\r\n".data

/-- Constant `bodyEndIndicator = crlf + "0" + crlf` of the source. -/
def bodyEndIndicator : List Char := crlf ++ "0".data ++ crlf

/-- Constant `fullBodyEndIndicatorPreviewMode = "; ieof" + doubleCRLF` of the source. -/
def fullBodyEndIndicatorPreviewMode : List Char := "; ieof".data ++ doubleCRLF

/-- Constant `icap100ContinueMsg = "ICAP/1.0 100 Continue" + doubleCRLF` of the source. -/
def icap100ContinueMsg : List Char := "ICAP/1.0 100 Continue".data ++ doubleCRLF

/-- Constant `icap204NoModsMsg = "ICAP/1.0 204 Unmodified"` of the source. -/
def icap204NoModsMsg : List Char := "ICAP/1.0 204 Unmodified".data

/-- Split a byte string at the first occurrence of `\r\n\r\n`: the embedding of
`strings.SplitN(str, doubleCRLF, 2)`.  Returns `none` when the separator does
not occur (Go: the resulting slice has length 1); otherwise the part before
the separator and the part after it. -/
def splitOnDCRLF : List Char → Option (List Char × List Char)
  | [] => none
  | c :: rest =>
    if (c :: rest).take 4 = doubleCRLF then some ([], rest.drop 3)
    else match splitOnDCRLF rest with
      | some (h, b) => some (c :: h, b)
      | none => none

/-- Helper `splitBodyAndHeader` of the source: separates header and body of an
HTTP message; fails (`ok == false`) when there is no `\r\n\r\n` separator or
the part after it is empty. -/
def splitBodyAndHeader (str : List Char) : Option (List Char × List Char) :=
  match splitOnDCRLF str with
  | none => none
  | some (h, b) => if b = [] then none else some (h, b)

/-- Helper `addHexBodyByteNotations` of the source:
`fmt.Sprintf("%x%s%s%s", len(bodyBytes), crlf, *bodyStr, bodyEndIndicator)`.
`Nat.toDigits 16` embeds Go's `%x` (lowercase hexadecimal, no padding). -/
def addHexBodyByteNotations (bodyStr : List Char) : List Char :=
  Nat.toDigits 16 bodyStr.length ++ crlf ++ bodyStr ++ bodyEndIndicator

/-- Helper `parsePreviewBodyBytes` of the source.  When the message has a
header/body split, Go evaluates `bodyStr[:pb]`, which panics when
`pb > len(bodyStr)`; the panic is embedded as `none`. -/
def parsePreviewBodyBytes (str : List Char) (pb : Nat) : Option (List Char) :=
  match splitBodyAndHeader str with
  | none => some str
  | some (h, b) => if pb ≤ b.length then some (h ++ doubleCRLF ++ b.take pb) else none

/-- Count the leading `'\n' :: '\r'` pairs of a reversed byte string and return
what follows them. -/
def revCRLFRun : List Char → Nat × List Char
  | [] => (0, [])
  | [c] => (0, [c])
  | c1 :: c2 :: rest =>
    if c1 = '\n' ∧ c2 = '\r' then ((revCRLFRun rest).1 + 1, (revCRLFRun rest).2)
    else (0, c1 :: c2 :: rest)

/-- The regular expression `\r\n0(\r\n)+$` of the source, decided on the
reversed string: the string matches at its end iff after stripping the maximal
run of trailing `\r\n` pairs (at least one) the next bytes backwards are
`0`, `\n`, `\r`.  A shorter-than-maximal run never helps, because the
remaining pairs would put `'\n'` (not `'0'`) at the match position. -/
def chunkEndPattern (bodyStr : List Char) : Bool :=
  let p := revCRLFRun bodyStr.reverse
  1 ≤ p.1 && (match p.2 with
    | '0' :: '\n' :: '\r' :: _ => true
    | _ => false)

/-- Helper `bodyAlreadyChunked` of the source: split off the header, then test
the body against `\r\n0(\r\n)+$`. -/
def bodyAlreadyChunked (str : List Char) : Bool :=
  match splitBodyAndHeader str with
  | none => false
  | some (_, b) => chunkEndPattern b

/-- Embedding of `strings.TrimSuffix(str, doubleCRLF)`: removes one trailing
`\r\n\r\n` when present. -/
def trimSuffixDCRLF (str : List Char) : List Char :=
  if doubleCRLF <:+ str then str.take (str.length - 4) else str

/-- Helper `addFullBodyInPreviewIndicator` of the source. -/
def addFullBodyInPreviewIndicator (str : List Char) : List Char :=
  trimSuffixDCRLF str ++ fullBodyEndIndicatorPreviewMode

/-- Helper `mergeHeaderAndBody` of the source. -/
def mergeHeaderAndBody (headerStr bodyStr : List Char) : List Char :=
  headerStr ++ doubleCRLF ++ bodyStr

/-- Fuel-bounded worker for `findAllDCRLFEnds`.  Every successful split
consumes the four separator bytes, so the string handed to the recursive call
is at least four bytes shorter; fuel `s.length + 1` therefore never runs out,
and the explicit fuel keeps the definition structurally recursive. -/
def findAllAux : Nat → List Char → Nat → List Nat
  | 0, _, _ => []
  | fuel + 1, s, ofs =>
    match splitOnDCRLF s with
    | none => []
    | some (h, b) => (ofs + h.length + 4) :: findAllAux fuel b (ofs + h.length + 4)

/-- End positions (exclusive) of the non-overlapping left-to-right matches of
`\r\n\r\n`, the embedding of `regexp.MustCompile(doubleCRLF).FindAllStringIndex`
restricted to the end offsets `[i][1]`, which are the only components
`setEncapsulatedHeaderValue` reads. -/
def findAllDCRLFEnds (s : List Char) (ofs : Nat) : List Nat :=
  findAllAux (s.length + 1) s ofs

/-- Offset `o` in `s` is 0 or points at the byte immediately after an
occurrence of `\r\n\r\n`. -/
def isAfterDCRLF (s : List Char) (o : Nat) : Prop :=
  o = 0 ∨ (4 ≤ o ∧ (s.drop (o - 4)).take 4 = doubleCRLF)

instance (s : List Char) (o : Nat) : Decidable (isAfterDCRLF s o) := by
  unfold isAfterDCRLF; infer_instance

/-- The running variable `reqEndsAt` of `setEncapsulatedHeaderValue`: 0 when the
request block has no `\r\n\r\n`, the end of the second match when there is more
than one, else the end of the first match. -/
def reqEndsAtVal (httpReqStr : List Char) : Nat :=
  match findAllDCRLFEnds httpReqStr 0 with
  | [] => 0
  | [e] => e
  | _ :: e2 :: _ => e2

/-- The ordered `(section, offset)` pairs emitted by the REQMOD/RESPMOD branch
of `setEncapsulatedHeaderValue`, mirroring its branch structure exactly. -/
def encapsulatedPairs (httpReqStr httpRespStr : List Char) : List (String × Nat) :=
  let rIdx := findAllDCRLFEnds httpReqStr 0
  let sIdx := findAllDCRLFEnds httpRespStr 0
  let reqEndsAt := reqEndsAtVal httpReqStr
  let reqPairs : List (String × Nat) :=
    match rIdx with
    | [] => []
    | e :: rest =>
      ("req-hdr", 0) ::
        (match rest with
         | _ :: _ => [("req-body", e)]
         | [] => if httpRespStr = [] then [("null-body", e)] else [])
  let respPairs : List (String × Nat) :=
    match sIdx with
    | [] => []
    | e :: rest =>
      ("res-hdr", reqEndsAt) ::
        (match rest with
         | _ :: _ => [("res-body", reqEndsAt + e)]
         | [] => [("null-body", reqEndsAt + e)])
  reqPairs ++ respPairs

/-- Modelled from the spec, section 4.2 table (step 4): the section names that
should be present for a REQMOD/RESPMOD request, given the request and response
byte strings. -/
def specSectionNames (httpReqStr httpRespStr : List Char) : List String :=
  let R := findAllDCRLFEnds httpReqStr 0
  let S := findAllDCRLFEnds httpRespStr 0
  (if R ≠ [] then ["req-hdr"] else []) ++
  (if 1 < R.length then ["req-body"]
   else if R ≠ [] ∧ httpRespStr = [] then ["null-body"] else []) ++
  (if S ≠ [] then ["res-hdr"] else []) ++
  (if 1 < S.length then ["res-body"] else if S ≠ [] then ["null-body"] else [])

/-- Constant `MethodOPTIONS` of the source. -/
def MethodOPTIONS : String := "OPTIONS"

/-- Constant `MethodRESPMOD` of the source. -/
def MethodRESPMOD : String := "RESPMOD"

/-- Constant `MethodREQMOD` of the source. -/
def MethodREQMOD : String := "REQMOD"

/-- The `encpVal` string built by `setEncapsulatedHeaderValue`, transcribed
branch for branch; `Nat.repr` embeds Go's `%d`. -/
def encpValOf (icapReqStr httpReqStr httpRespStr : List Char) : List Char :=
  let optPart : List Char :=
    if MethodOPTIONS.data <+: icapReqStr then
      if httpReqStr = [] ∧ httpRespStr = [] then "null-body=0".data else "opt-body=0".data
    else []
  let modPart : List Char :=
    if MethodREQMOD.data <+: icapReqStr ∨ MethodRESPMOD.data <+: icapReqStr then
      let rIdx := findAllDCRLFEnds httpReqStr 0
      let sIdx := findAllDCRLFEnds httpRespStr 0
      let reqEndsAt := reqEndsAtVal httpReqStr
      let reqPart : List Char :=
        match rIdx with
        | [] => []
        | e :: rest =>
          "req-hdr=0".data ++
            (match rest with
             | _ :: _ => ", req-body=".data ++ (Nat.repr e).data
             | [] =>
               if httpRespStr = [] then ", null-body=".data ++ (Nat.repr e).data else []) ++
            (if httpRespStr = [] then [] else ", ".data)
      let respPart : List Char :=
        match sIdx with
        | [] => []
        | e :: rest =>
          "res-hdr=".data ++ (Nat.repr reqEndsAt).data ++
            (match rest with
             | _ :: _ => ", res-body=".data ++ (Nat.repr (reqEndsAt + e)).data
             | [] => ", null-body=".data ++ (Nat.repr (reqEndsAt + e)).data)
      reqPart ++ respPart
    else []
  " ".data ++ optPart ++ modPart

/-- Substitution of the single `%s` verb: the embedding of
`fmt.Sprintf(*icapReqStr, encpVal)` for a format string holding exactly one
`%s` and no other verb. -/
def substPercentS : List Char → List Char → List Char
  | [], _ => []
  | '%' :: 's' :: rest, v => v ++ rest
  | c :: rest, v => c :: substPercentS rest v

/-- Function `setEncapsulatedHeaderValue` of the source: computes `encpVal`
and writes it into the `%s` placeholder of the ICAP message string. -/
def setEncapsulatedHeaderValue (icapReqStr httpReqStr httpRespStr : List Char) : List Char :=
  substPercentS icapReqStr (encpValOf icapReqStr httpReqStr httpRespStr)

/-- The S1 sample request of the spec and of `TestSetEncapsulatedHeaderValue`:
a 170-byte headers-only GET. -/
def s1HeadersOnlyGet : String :=
  "GET / HTTP/1.1\r\n" ++
  "Host: www.origin-server.com\r\n" ++
  "Accept: text/html, text/plain\r\n" ++
  "Accept-Encoding: compress\r\n" ++
  "Cookie: ff39fk3jur@4ii0e02i\r\n" ++
  "If-None-Match: \"xyzzy\", \"r2d2xxxx\"\r\n\r\n"

/-- The fields of `Request` that `toICAPMessage` and `Client.Do` read.  The
embedded HTTP messages appear as the byte strings produced by the external
`net/http` dumpers (`httputil.DumpRequestOut` followed by
`replaceRequestURIWithActualURL`, and `httputil.DumpResponse`); those bytes
are inputs of the model because the dumpers live outside this repository.
`Header` is one iteration order of the Go header map, with canonical keys. -/
structure Request where
  Method : String
  URLString : String
  Header : List (String × String)
  dumpedReq : Option (List Char)
  dumpedResp : Option (List Char)
  previewSet : Bool
  PreviewBytes : Nat
  bodyFittedInPreview : Bool
  remainingPreviewBytes : List Char

/-- `req.Header.Get(key)`: the first value stored under the key, `""` when
absent. -/
def headerGet (hs : List (String × String)) (k : String) : String :=
  match hs with
  | [] => ""
  | (k0, v) :: rest => if k0 = k then v else headerGet rest k

/-- The ICAP header block built at the top of `toICAPMessage`: request line,
one line per header pair, the `Encapsulated: %s` placeholder line and the
closing blank line. -/
def icapHeaderBlock (req : Request) : List Char :=
  (req.Method ++ " " ++ req.URLString ++ " " ++ "ICAP/1.0").data ++ crlf ++
  req.Header.foldr (fun hv acc => (hv.1 ++ ": " ++ hv.2).data ++ crlf ++ acc) [] ++
  "Encapsulated: %s".data ++ crlf ++ crlf

/-- The padding loop of `toICAPMessage`
(`for !strings.HasSuffix(httpReqStr, doubleCRLF) { httpReqStr += crlf }`).
Appending `crlf` to a string that already ends with `crlf` produces a
`doubleCRLF` tail, so the loop body runs at most twice and fuel 2 reproduces
the loop exactly. -/
def padLoopAux : Nat → List Char → List Char
  | 0, s => s
  | k + 1, s => if doubleCRLF <:+ s then s else padLoopAux k (s ++ crlf)

def padToDoubleCRLF (s : List Char) : List Char := padLoopAux 2 s

/-- The HTTP request block processing of `toICAPMessage`: REQMOD preview
truncation and chunk wrapping, then padding to a `\r\n\r\n` tail when the
block is non-empty.  `none` embeds a Go panic raised by
`parsePreviewBodyBytes`. -/
def processHTTPReqBlock (req : Request) : Option (List Char) :=
  match req.dumpedReq with
  | none => some []
  | some b =>
    Option.bind
      (if req.Method = MethodREQMOD then
        Option.bind
          (if req.previewSet then parsePreviewBodyBytes b req.PreviewBytes else some b)
          (fun s1 => some (if bodyAlreadyChunked s1 then s1
            else match splitBodyAndHeader s1 with
              | some (h2, b2) => mergeHeaderAndBody h2 (addHexBodyByteNotations b2)
              | none => s1))
      else some b)
      (fun s => some (if s = [] then s else padToDoubleCRLF s))

/-- The HTTP response block processing of `toICAPMessage`: preview truncation,
chunk wrapping, then at most one `crlf` of padding. -/
def processHTTPRespBlock (req : Request) : Option (List Char) :=
  match req.dumpedResp with
  | none => some []
  | some b =>
    Option.bind
      (if req.previewSet then parsePreviewBodyBytes b req.PreviewBytes else some b)
      (fun s1 =>
        let s2 := if bodyAlreadyChunked s1 then s1
          else match splitBodyAndHeader s1 with
            | some (h2, b2) => mergeHeaderAndBody h2 (addHexBodyByteNotations b2)
            | none => s1
        some (if s2 ≠ [] ∧ ¬ (doubleCRLF <:+ s2) then s2 ++ crlf else s2))

/-- Function `toICAPMessage` of the source: ICAP header block, processed HTTP
blocks, Encapsulated value (explicit header value when the caller set one),
and the `ieof` full-body-in-preview indicators. -/
def toICAPMessage (req : Request) : Option (List Char) :=
  Option.bind (processHTTPReqBlock req) (fun httpReqStr =>
    Option.bind (processHTTPRespBlock req) (fun httpRespStr =>
      let reqStr := icapHeaderBlock req
      let reqStr2 :=
        if headerGet req.Header "Encapsulated" ≠ "" then
          substPercentS reqStr (headerGet req.Header "Encapsulated").data
        else setEncapsulatedHeaderValue reqStr httpReqStr httpRespStr
      let httpRespStr2 :=
        if httpRespStr ≠ [] ∧ req.previewSet ∧ req.bodyFittedInPreview then
          addFullBodyInPreviewIndicator httpRespStr
        else httpRespStr
      let httpReqStr2 :=
        if req.Method = MethodREQMOD ∧ req.previewSet ∧ req.bodyFittedInPreview then
          addFullBodyInPreviewIndicator httpReqStr
        else httpReqStr
      some (reqStr2 ++ httpReqStr2 ++ httpRespStr2)))

/-- The response block of the request follows the standard chunk-wrapping
path: a dumped response is present, preview truncation succeeds, and the
truncated bytes are not already chunked and split into header and non-empty
body. -/
def respChunkWrapPath (req : Request) : Bool :=
  match req.dumpedResp with
  | none => false
  | some b =>
    match (if req.previewSet then parsePreviewBodyBytes b req.PreviewBytes else some b) with
    | none => false
    | some s1 => !(bodyAlreadyChunked s1) && (splitBodyAndHeader s1).isSome

/-- A RESPMOD request whose dumped response has headers and a 4-byte body that
fits the preview: the standard chunk-wrapping path. -/
def sampleFittedReq : Request :=
  { Method := "RESPMOD", URLString := "icap://localhost/x", Header := [],
    dumpedReq := none, dumpedResp := some "H: v\r\n\r\nBODY".data,
    previewSet := true, PreviewBytes := 4, bodyFittedInPreview := true,
    remainingPreviewBytes := [] }

/-- A RESPMOD request whose dumped response is a headers-only 204 (no body),
with the preview set and the (empty) body fitting it. -/
def cexPreviewReq : Request :=
  { Method := "RESPMOD", URLString := "icap://localhost/x", Header := [],
    dumpedReq := none, dumpedResp := some "HTTP/1.1 204 No Content\r\n\r\n".data,
    previewSet := true, PreviewBytes := 0, bodyFittedInPreview := true,
    remainingPreviewBytes := [] }

/-- Lines 69-86 of `Client.Do`: after the first exchange, decide from the
first response's status code whether a second `Send` is issued on the same
connection and compute its bytes; `none` means the first response is returned
without a second flight. -/
def clientDoSecondFlight (req : Request) (firstStatusCode : Int) : Option (List Char) :=
  let done := ¬(firstStatusCode = 100 ∧ req.bodyFittedInPreview = false ∧
    req.previewSet = true)
  if done then none
  else
    let data := req.remainingPreviewBytes
    let data1 := if bodyAlreadyChunked data then data else addHexBodyByteNotations data
    let data2 := if doubleCRLF <:+ data1 then data1 else data1 ++ crlf
    some data2

/-- A request mid-preview: the body did not fit, 16 raw bytes remain. -/
def sampleContinueReq : Request :=
  { Method := "REQMOD", URLString := "icap://localhost/x", Header := [],
    dumpedReq := some "POST / HTTP/1.1\r\n\r\nHello World! Bye Bye World!".data,
    dumpedResp := none, previewSet := true, PreviewBytes := 11,
    bodyFittedInPreview := false,
    remainingPreviewBytes := "! Bye Bye World!".data }

/-- The read loop of `ICAPConn.Send`: `data` accumulates the chunks delivered
by successive `tcp.Read` calls.  The loop exits before appending on EOF or an
empty read (the chunk list ending, or an empty chunk), and otherwise exits
after appending a chunk exactly when the buffer equals `icap100ContinueMsg`,
ends with `0\r\n\r\n`, or contains `icap204NoModsMsg`; it returns the bytes
accumulated so far. -/
def connReadLoop : List Char → List (List Char) → List Char
  | data, [] => data
  | data, chunk :: rest =>
    if chunk = [] then data
    else
      let data2 := data ++ chunk
      if data2 = icap100ContinueMsg then data2
      else if "0\r\n\r\n".data <:+ data2 then data2
      else if icap204NoModsMsg <:+: data2 then data2
      else connReadLoop data2 rest

/-- Constant `icapVersion = "ICAP/1.0"` of the source. -/
def icapVersion : List Char := "ICAP/1.0".data

/-- Constant `httpVersion = "HTTP/1.1"` of the source. -/
def httpVersion : List Char := "HTTP/1.1".data

/-- Helper `isRequestLine` of the source: the line contains `ICAP/1.0` or
`HTTP/1.1`. -/
def isRequestLine (str : List Char) : Bool :=
  decide (icapVersion <:+: str) || decide (httpVersion <:+: str)

/-- The ASCII space class of `unicode.IsSpace` (the non-ASCII space runes
never occur in the byte streams in scope). -/
def isSpaceGo (c : Char) : Bool :=
  c = ' ' || c = '\t' || c = '\n' || c = '\x0b' || c = '\x0c' || c = '\r'

/-- Embedding of `strings.TrimSpace`. -/
def trimSpace (s : List Char) : List Char :=
  ((s.dropWhile isSpaceGo).reverse.dropWhile isSpaceGo).reverse

/-- Embedding of `strings.Split(str, " ")`. -/
def splitOnSpace (s : List Char) : List (List Char) := s.splitOn ' '

/-- Embedding of `strconv.Atoi`: an optional sign followed by at least one
ASCII digit and nothing else; range clamping is not modelled, the values in
scope are small. -/
def atoiE (s : List Char) : Except Unit Int :=
  let p : Int × List Char :=
    match s with
    | '+' :: rest => (1, rest)
    | '-' :: rest => (-1, rest)
    | _ => (1, s)
  if p.2 = [] ∨ ¬ p.2.all (fun c => c.isDigit) then .error ()
  else .ok (p.1 * ((p.2.foldl (fun acc c => acc * 10 + (c.toNat - 48)) 0 : Nat) : Int))

/-- The value of `pb` in `pb, _ := strconv.Atoi(val)`: the parsed integer, or
0 when `Atoi` fails. -/
def atoiOrZero (s : List Char) : Int :=
  match atoiE s with
  | .ok n => n
  | .error _ => 0

/-- Split a byte string at the first `':'`, the embedding of
`strings.SplitN(str, ":", 2)`. -/
def splitOnColon : List Char → Option (List Char × List Char)
  | [] => none
  | c :: rest =>
    if c = ':' then some ([], rest)
    else match splitOnColon rest with
      | some (h, t) => some (c :: h, t)
      | none => none

/-- Helper `getHeaderVal` of the source: header name before the first colon,
trimmed value after it (empty when there is no colon). -/
def getHeaderVal (str : List Char) : List Char × List Char :=
  match splitOnColon str with
  | none => (str, [])
  | some (h, t) => (h, trimSpace t)

/-- Helper `getStatusWithCode` of the source: `strconv.Atoi` on the first
string (an error propagates), trimmed second string as status text. -/
def getStatusWithCode (str1 str2 : List Char) : Except Unit (Int × List Char) :=
  match atoiE str1 with
  | .error e => .error e
  | .ok code => .ok (code, trimSpace str2)

/-- Scheme states of the `readResponse` walk (`scheme` starts as `""`). -/
inductive RRScheme
  | empty
  | icap
  | httpReq
  | httpResp

deriving DecidableEq

/-- Error outcomes of `readResponse`: a start line with fewer than three
space-separated tokens (`fmt.Errorf` wrapping `ErrInvalidTCPMsg`), a failing
`strconv.Atoi` on the status line, or a failing embedded HTTP parse. -/
inductive RRErr
  | invalidTCPMsg (line : List Char)
  | statusAtoiErr
  | httpParseErr

deriving DecidableEq

/-- The mutable state of `readResponse`: the `scheme` and `httpMsg` locals
plus the `Response` fields it fills in.  `ContentRequest`/`ContentResponse`
hold the raw bytes handed to the external `net/http` parsers. -/
structure RRState where
  scheme : RRScheme
  httpMsg : List Char
  StatusCode : Int
  Status : List Char
  PreviewBytes : Int
  Header : List (List Char × List Char)
  ContentRequest : Option (List Char)
  ContentResponse : Option (List Char)

deriving DecidableEq

/-- Success oracles for the external `http.ReadRequest` and
`http.ReadResponse` parsers, whose code lies outside this repository. -/
structure HTTPOracles where
  reqOK : List Char → Bool
  respOK : List Char → Bool

deriving instance DecidableEq for Except

/-- The zero-value start state of `readResponse`. -/
def initRRState : RRState :=
  { scheme := .empty, httpMsg := [], StatusCode := 0, Status := [],
    PreviewBytes := 0, Header := [], ContentRequest := none,
    ContentResponse := none }

/-- The three scheme sections at the bottom of the `readResponse` loop body
(ICAP headers, embedded HTTP request, embedded HTTP response), run on the
state left by start-line classification. -/
def rrSections (g : HTTPOracles) (line : List Char) (bufferEmpty : Bool) (st2 : RRState) :
    Except RRErr RRState :=
  if st2.scheme = .icap then
    if line = "\n".data ∨ line = crlf then .ok st2
    else
      let hv := getHeaderVal line
      let st3 := if hv.1 = "Preview".data
        then { st2 with PreviewBytes := atoiOrZero hv.2 } else st2
      .ok { st3 with Header := st3.Header ++ [hv] }
  else if st2.scheme = .httpReq then
    let st3 := { st2 with httpMsg := st2.httpMsg ++ trimSpace line ++ crlf }
    if line = crlf ∨ bufferEmpty then
      if g.reqOK st3.httpMsg then .ok { st3 with ContentRequest := some st3.httpMsg }
      else .error .httpParseErr
    else .ok st3
  else if st2.scheme = .httpResp then
    let st3 := { st2 with httpMsg := st2.httpMsg ++ trimSpace line ++ crlf }
    if line = crlf ∨ bufferEmpty then
      if g.respOK st3.httpMsg then .ok { st3 with ContentResponse := some st3.httpMsg }
      else .error .httpParseErr
    else .ok st3
  else .ok st2

/-- One iteration of the `readResponse` loop on the line `line`;
`bufferEmpty` embeds `b.Buffered() == 0` (with a fully buffered reader this
holds exactly on the last line).  The `continue` after a parsed ICAP status
line is the direct return; every other path falls through to the scheme
sections. -/
def rrStep (g : HTTPOracles) (line : List Char) (bufferEmpty : Bool) (st : RRState) :
    Except RRErr RRState :=
  if isRequestLine line then
    let ss := splitOnSpace line
    if ss.length < 3 then .error (.invalidTCPMsg line)
    else if ss.getD 0 [] = icapVersion then
      match getStatusWithCode (ss.getD 1 []) (List.intercalate [' '] (ss.drop 2)) with
      | .error _ => .error .statusAtoiErr
      | .ok cs => .ok { st with scheme := .icap, StatusCode := cs.1, Status := cs.2 }
    else
      let st1 := if ss.getD 0 [] = httpVersion
        then { st with scheme := .httpResp, httpMsg := [] } else st
      let st2 := if trimSpace (ss.getD 2 []) = httpVersion
        then { st1 with scheme := .httpReq, httpMsg := [] } else st1
      rrSections g line bufferEmpty st2
  else rrSections g line bufferEmpty st

/-- The `readResponse` loop over the lines delivered by `ReadString('\n')`. -/
def rrLoop (g : HTTPOracles) : List (List Char) → RRState → Except RRErr RRState
  | [], st => .ok st
  | line :: rest, st =>
    match rrStep g line rest.isEmpty st with
    | .error e => .error e
    | .ok st2 => rrLoop g rest st2

/-- Split a byte stream into the lines `bufio.Reader.ReadString('\n')`
returns: every line keeps its `'\n'`, a last line without one is kept too. -/
def splitAfterNL : List Char → List (List Char)
  | [] => []
  | c :: rest =>
    if c = '\n' then ['\n'] :: splitAfterNL rest
    else match splitAfterNL rest with
      | [] => [[c]]
      | l :: ls => (c :: l) :: ls

/-- Function `readResponse` of the source. -/
def readResponse (g : HTTPOracles) (data : List Char) : Except RRErr RRState :=
  rrLoop g (splitAfterNL data) initRRState

/-- Transport outcomes of the connection model: `einval` is `syscall.EINVAL`;
the other constructors stand for errors handed back by the external dialer,
socket or parser. -/
inductive ConnErr
  | einval
  | dialFailed
  | ioFailed

deriving DecidableEq

/-- The `ICAPConn` state: its `tcp net.Conn` field, which stays `none` until
a `Connect` succeeds.  The socket handle itself is opaque.  (The `c != nil`
half of the Go `ok()` check has no counterpart here because the model works
on values, never on nil pointers.) -/
structure ICAPConn where
  tcp : Option Unit

deriving DecidableEq

/-- `NewICAPConn` of the source: returns `&ICAPConn{}`, whose socket is
unset. -/
def NewICAPConn : ICAPConn := { tcp := none }

/-- Method `ok` of `ICAPConn`: the socket is present. -/
def ICAPConn.connOK (c : ICAPConn) : Bool := c.tcp.isSome

/-- Method `ICAPConn.Send` at the observation level of its nil-socket guard:
when `ok()` fails the method returns `syscall.EINVAL` before touching the
socket; otherwise the result is whatever the write/read/parse exchange
produces, abstracted as the `exchange` argument (the read loop itself is
`connReadLoop`). -/
def ICAPConn.Send (c : ICAPConn) (exchange : Except ConnErr RRState) :
    Except ConnErr RRState :=
  if c.connOK then exchange else .error .einval

/-- Method `ICAPConn.Close`: `syscall.EINVAL` without touching the socket
when `ok()` fails, else the result of closing the socket. -/
def ICAPConn.Close (c : ICAPConn) (closeResult : Except ConnErr Unit) :
    Except ConnErr Unit :=
  if c.connOK then closeResult else .error .einval

/-- Method `ICAPConn.Connect`: dial through the external dialer; on failure
the error is returned and the socket field is left as it was, on success the
socket is installed.  (Deadline installation happens only for a non-zero
timeout and does not change the socket field.) -/
def ICAPConn.Connect (c : ICAPConn) (dialResult : Except ConnErr Unit) :
    ICAPConn × Option ConnErr :=
  match dialResult with
  | .error e => (c, some e)
  | .ok s => ({ tcp := some s }, none)

theorem splitOnDCRLF_eq : ∀ (s h b : List Char),
    splitOnDCRLF s = some (h, b) → s = h ++ doubleCRLF ++ b := by
  intro s
  induction s with
  | nil => intro h b hs; simp [splitOnDCRLF] at hs
  | cons c rest ih =>
    intro h b hs
    rw [splitOnDCRLF] at hs
    by_cases htake : (c :: rest).take 4 = doubleCRLF
    · simp only [htake, if_pos] at hs
      obtain ⟨rfl, rfl⟩ := Prod.mk.injEq .. ▸ Option.some.injEq .. ▸ hs
      have hsplit := List.take_append_drop 4 (c :: rest)
      rw [htake] at hsplit
      have hdrop : (c :: rest).drop 4 = rest.drop 3 := rfl
      rw [hdrop] at hsplit
      simp only [List.nil_append]
      exact hsplit.symm
    · simp only [htake, if_neg, not_false_iff] at hs
      cases hrec : splitOnDCRLF rest with
      | none => rw [hrec] at hs; exact absurd hs (by simp)
      | some p =>
        obtain ⟨h0, b0⟩ := p
        rw [hrec] at hs
        simp only [Option.some.injEq, Prod.mk.injEq] at hs
        obtain ⟨rfl, rfl⟩ := hs
        have hr := ih h0 b0 hrec
        simp only [List.cons_append, List.append_assoc] at hr ⊢
        exact congrArg (c :: ·) hr

theorem splitBodyAndHeader_eq {s h b : List Char}
    (hs : splitBodyAndHeader s = some (h, b)) :
    s = h ++ doubleCRLF ++ b ∧ b ≠ [] := by
  unfold splitBodyAndHeader at hs
  cases hsp : splitOnDCRLF s with
  | none => rw [hsp] at hs; exact absurd hs (by simp)
  | some p =>
    obtain ⟨h0, b0⟩ := p
    rw [hsp] at hs
    by_cases hb : b0 = []
    · simp [hb] at hs
    · simp only [hb, if_neg, not_false_iff, Option.some.injEq, Prod.mk.injEq] at hs
      obtain ⟨rfl, rfl⟩ := hs
      exact ⟨splitOnDCRLF_eq _ _ _ hsp, hb⟩

theorem findAllAux_fuel_eq : ∀ (f1 : Nat) (s : List Char) (ofs f2 : Nat),
    s.length < f1 → s.length < f2 → findAllAux f1 s ofs = findAllAux f2 s ofs := by
  intro f1
  induction f1 with
  | zero => intro s ofs f2 h1 _; omega
  | succ n ih =>
    intro s ofs f2 h1 h2
    cases f2 with
    | zero => omega
    | succ m =>
      simp only [findAllAux]
      cases hs : splitOnDCRLF s with
      | none => rfl
      | some p =>
        obtain ⟨h, b⟩ := p
        have hse := splitOnDCRLF_eq s h b hs
        have hblen : b.length + 4 ≤ s.length := by
          rw [hse]
          simp only [List.length_append, show doubleCRLF.length = 4 from rfl]
          omega
        simp only [List.cons.injEq, true_and]
        exact ih b _ m (by omega) (by omega)

theorem mem_findAllAux : ∀ (fuel : Nat) (s : List Char) (ofs : Nat), ∀ e ∈ findAllAux fuel s ofs,
    ∃ j, e = ofs + j + 4 ∧ (s.drop j).take 4 = doubleCRLF := by
  intro fuel
  induction fuel with
  | zero => intro s ofs e he; simp [findAllAux] at he
  | succ n ih =>
    intro s ofs e he
    rw [findAllAux] at he
    cases hs : splitOnDCRLF s with
    | none => rw [hs] at he; simp at he
    | some p =>
      obtain ⟨h, b⟩ := p
      rw [hs] at he
      have hse := splitOnDCRLF_eq s h b hs
      rcases List.mem_cons.mp he with rfl | hmem
      · refine ⟨h.length, rfl, ?_⟩
        have hdrop : s.drop h.length = doubleCRLF ++ b := by
          rw [hse, List.append_assoc, List.drop_left]
        rw [hdrop, List.take_left' (by rfl)]
      · obtain ⟨j, hj, hjtake⟩ := ih b _ e hmem
        refine ⟨h.length + 4 + j, by omega, ?_⟩
        have hdrop : s.drop (h.length + 4 + j) = b.drop j := by
          rw [hse, List.append_assoc, show h.length + 4 + j = h.length + (4 + j) from by omega,
            List.drop_append, show 4 + j = doubleCRLF.length + j from rfl, List.drop_append]
        rw [hdrop, hjtake]

theorem mem_findAllDCRLFEnds (s : List Char) (ofs : Nat) : ∀ e ∈ findAllDCRLFEnds s ofs,
    ∃ j, e = ofs + j + 4 ∧ (s.drop j).take 4 = doubleCRLF :=
  mem_findAllAux (s.length + 1) s ofs

theorem dcrlfAt_append_left {req : List Char} (resp : List Char) {j : Nat}
    (h : (req.drop j).take 4 = doubleCRLF) :
    ((req ++ resp).drop j).take 4 = doubleCRLF := by
  have hlen4 : (List.take 4 (req.drop j)).length = 4 := by rw [h]; rfl
  rw [List.length_take] at hlen4
  have hle : j ≤ req.length := by
    rw [List.length_drop] at hlen4; omega
  rw [List.drop_append_of_le_length hle,
    List.take_append_of_le_length (by rw [List.length_drop] at hlen4 ⊢; omega), h]

theorem dcrlfAt_append_right (req : List Char) {resp : List Char} {j : Nat}
    (h : (resp.drop j).take 4 = doubleCRLF) :
    ((req ++ resp).drop (req.length + j)).take 4 = doubleCRLF := by
  rw [List.drop_append]; exact h

theorem isAfterDCRLF_left {req : List Char} (resp : List Char) {e : Nat}
    (he : e ∈ findAllDCRLFEnds req 0) : isAfterDCRLF (req ++ resp) e := by
  obtain ⟨j, hj, htake⟩ := mem_findAllDCRLFEnds req 0 e he
  refine Or.inr ⟨by omega, ?_⟩
  rw [show e - 4 = j from by omega]
  exact dcrlfAt_append_left resp htake

theorem isAfterDCRLF_right (req : List Char) {resp : List Char} {e : Nat}
    (he : e ∈ findAllDCRLFEnds resp 0) : isAfterDCRLF (req ++ resp) (req.length + e) := by
  obtain ⟨j, hj, htake⟩ := mem_findAllDCRLFEnds resp 0 e he
  refine Or.inr ⟨by omega, ?_⟩
  rw [show req.length + e - 4 = req.length + j from by omega]
  exact dcrlfAt_append_right req htake

theorem reqEndsAtVal_mem (req : List Char) :
    reqEndsAtVal req = 0 ∨ reqEndsAtVal req ∈ findAllDCRLFEnds req 0 := by
  rcases h : findAllDCRLFEnds req 0 with _ | ⟨e, _ | ⟨e2, r⟩⟩ <;>
    simp [reqEndsAtVal, h]

theorem findAllDCRLFEnds_nil (ofs : Nat) : findAllDCRLFEnds [] ofs = [] := rfl

theorem mem_encapsulatedPairs (req resp : List Char) (p : String × Nat)
    (hp : p ∈ encapsulatedPairs req resp) :
    p.2 = 0 ∨ p.2 ∈ findAllDCRLFEnds req 0 ∨ p.2 = reqEndsAtVal req ∨
      (resp ≠ [] ∧ ∃ f ∈ findAllDCRLFEnds resp 0, p.2 = reqEndsAtVal req + f) := by
  simp only [encapsulatedPairs, List.mem_append] at hp
  rcases hp with hpq | hps
  · rcases hR : findAllDCRLFEnds req 0 with _ | ⟨e, _ | ⟨e2, rrest⟩⟩
    · rw [hR] at hpq; simp at hpq
    · rw [hR] at hpq
      by_cases hresp : resp = []
      · simp [hresp] at hpq
        rcases hpq with rfl | rfl
        · exact Or.inl rfl
        · exact Or.inr (Or.inl (by simp))
      · simp [hresp] at hpq
        subst hpq
        exact Or.inl rfl
    · rw [hR] at hpq
      simp at hpq
      rcases hpq with rfl | rfl
      · exact Or.inl rfl
      · exact Or.inr (Or.inl (by simp))
  · rcases hS : findAllDCRLFEnds resp 0 with _ | ⟨f, _ | ⟨f2, srest⟩⟩
    · rw [hS] at hps; simp at hps
    · have hrespne : resp ≠ [] := by
        intro hr
        rw [hr, findAllDCRLFEnds_nil] at hS
        exact List.noConfusion hS
      rw [hS] at hps
      simp at hps
      rcases hps with rfl | rfl
      · exact Or.inr (Or.inr (Or.inl rfl))
      · exact Or.inr (Or.inr (Or.inr ⟨hrespne, f, by simp, rfl⟩))
    · have hrespne : resp ≠ [] := by
        intro hr
        rw [hr, findAllDCRLFEnds_nil] at hS
        exact List.noConfusion hS
      rw [hS] at hps
      simp at hps
      rcases hps with rfl | rfl
      · exact Or.inr (Or.inr (Or.inl rfl))
      · exact Or.inr (Or.inr (Or.inr ⟨hrespne, f, by simp, rfl⟩))

/-- C1 (amended): for every pair of HTTP request/response byte strings, the
REQMOD/RESPMOD branch of `setEncapsulatedHeaderValue` names exactly the
sections of the section table of the spec, and — provided that whenever the
response bytes are non-empty the request block ends exactly at `reqEndsAt` —
every emitted offset is 0 or the index of the byte immediately after an
occurrence of `\r\n\r\n` in the concatenation of the two byte strings. -/
theorem encapsulated_sections_and_offsets (httpReqStr httpRespStr : List Char) :
    (encapsulatedPairs httpReqStr httpRespStr).map Prod.fst =
        specSectionNames httpReqStr httpRespStr ∧
    ((httpRespStr ≠ [] → reqEndsAtVal httpReqStr = httpReqStr.length) →
      ∀ p ∈ encapsulatedPairs httpReqStr httpRespStr,
        isAfterDCRLF (httpReqStr ++ httpRespStr) p.2) := by
  constructor
  · rcases hR : findAllDCRLFEnds httpReqStr 0 with _ | ⟨e, _ | ⟨e2, rrest⟩⟩ <;>
      rcases hS : findAllDCRLFEnds httpRespStr 0 with _ | ⟨f, _ | ⟨f2, srest⟩⟩ <;>
      by_cases hresp : httpRespStr = [] <;>
      simp_all [encapsulatedPairs, specSectionNames, findAllDCRLFEnds_nil]
  · intro hend p hp
    rcases mem_encapsulatedPairs httpReqStr httpRespStr p hp with h0 | hin | hre | ⟨hne, f, hf, hpe⟩
    · exact Or.inl h0
    · exact isAfterDCRLF_left _ hin
    · rw [hre]
      rcases reqEndsAtVal_mem httpReqStr with hz | hm
      · exact Or.inl hz
      · exact isAfterDCRLF_left _ hm
    · rw [hpe, hend hne]
      exact isAfterDCRLF_right _ hf

/-- C1 witness: on the RFC-like pair whose request block ends at its second
`\r\n\r\n`, the theorem applies and places the `res-body` offset 15 after a
`\r\n\r\n` of the concatenation. -/
theorem encapsulated_sections_and_offsets_witness :
    isAfterDCRLF ("H\r\n\r\nB\r\n\r\n".data ++ "R\r\n\r\nC\r\n\r\n".data) 15 :=
  (encapsulated_sections_and_offsets "H\r\n\r\nB\r\n\r\n".data "R\r\n\r\nC\r\n\r\n".data).2
    (fun _ => by decide) ("res-body", 15) (by decide)

/-- C1 counterexample: for the request bytes `"X\r\n\r\nY"` (which do not end
at the first `\r\n\r\n` match) and response bytes `"Z\r\n\r\n"`, the code
emits `null-body=10`, yet offset 10 is neither 0 nor the index of a byte
immediately after a `\r\n\r\n` occurrence of the concatenation (the only such
indices are 5 and 11), refuting the claim as stated for arbitrary byte
strings. -/
theorem encapsulated_offset_cex :
    ("null-body", 10) ∈ encapsulatedPairs "X\r\n\r\nY".data "Z\r\n\r\n".data ∧
    ¬ isAfterDCRLF ("X\r\n\r\nY".data ++ "Z\r\n\r\n".data) 10 ∧
    encpValOf "RESPMOD\r\nEncapsulated: %s\r\n\r\n".data "X\r\n\r\nY".data "Z\r\n\r\n".data
      = " req-hdr=0, res-hdr=5, null-body=10".data :=
  ⟨by decide, by decide, by decide⟩

/-- C5: for the S1 REQMOD input, the computed Encapsulated header value is
exactly `" req-hdr=0, null-body=170"`, including the single leading space, and
substituting it into the ICAP message reproduces the expected test vector. -/
theorem encapsulated_value_s1 :
    encpValOf "REQMOD\r\nEncapsulated: %s\r\n\r\n".data s1HeadersOnlyGet.data []
      = " req-hdr=0, null-body=170".data ∧
    setEncapsulatedHeaderValue "REQMOD\r\nEncapsulated: %s\r\n\r\n".data s1HeadersOnlyGet.data []
      = "REQMOD\r\nEncapsulated:  req-hdr=0, null-body=170\r\n\r\n".data :=
  ⟨by decide, by decide⟩

/-- C6: `addHexBodyByteNotations` maps any byte string `s` to
`hex(|s|) ++ "\r\n" ++ s ++ "\r\n0\r\n"` with a lowercase unpadded hexadecimal
length, as on the two samples of `TestAddHexaBodyByteNotations` (length 12
prints as `c`, length 37 as `25`). -/
theorem addHexBodyByteNotations_spec :
    (∀ s : List Char, addHexBodyByteNotations s =
        Nat.toDigits 16 s.length ++ "\r\n".data ++ s ++ "\r\n0\r\n".data) ∧
    addHexBodyByteNotations "Hello World!".data = "c\r\nHello World!\r\n0\r\n".data ∧
    addHexBodyByteNotations "This is another message. Alright bye!".data
      = "25\r\nThis is another message. Alright bye!\r\n0\r\n".data :=
  ⟨fun _ => rfl, by decide, by decide⟩

/-- C7 (amended): for every message that splits at the first `\r\n\r\n` into a
header and a non-empty body and every `n ≤ |body|`, `parsePreviewBodyBytes`
yields `header ++ "\r\n\r\n" ++ body[:n]`, and at `n = |body|` the message is
returned unchanged.  For `n > |body|` the Go expression `bodyStr[:pb]` panics
instead of returning the message, see the counterexample. -/
theorem parsePreviewBodyBytes_spec (msg h b : List Char) (n : Nat)
    (hs : splitBodyAndHeader msg = some (h, b)) (hn : n ≤ b.length) :
    parsePreviewBodyBytes msg n = some (h ++ doubleCRLF ++ b.take n) ∧
    (n = b.length → parsePreviewBodyBytes msg n = some msg) := by
  constructor
  · simp [parsePreviewBodyBytes, hs, hn]
  · intro he
    obtain ⟨hm, _⟩ := splitBodyAndHeader_eq hs
    simp [parsePreviewBodyBytes, hs, hn, he, List.take_length, ← hm]

/-- C7 witness: the message `"H: v\r\n\r\nBODY"` with `n = 4 = |body|` is
returned unchanged. -/
theorem parsePreviewBodyBytes_spec_witness :
    parsePreviewBodyBytes "H: v\r\n\r\nBODY".data 4 = some "H: v\r\n\r\nBODY".data :=
  (parsePreviewBodyBytes_spec "H: v\r\n\r\nBODY".data "H: v".data "BODY".data 4
    (by decide) (by decide)).2 (by decide)

/-- C7 counterexample: the message `"H\r\n\r\nB"` splits into header `"H"` and
non-empty body `"B"`, yet at `n = 2 > |body|` the code panics on `bodyStr[:2]`
(embedded as `none`) instead of returning the message unchanged as the claim
states for every `n ≥ |body|`. -/
theorem parsePreviewBodyBytes_cex :
    splitBodyAndHeader "H\r\n\r\nB".data = some ("H".data, "B".data) ∧
    parsePreviewBodyBytes "H\r\n\r\nB".data 2 = none ∧
    parsePreviewBodyBytes "H\r\n\r\nB".data 2 ≠ some "H\r\n\r\nB".data :=
  ⟨by decide, by decide, by decide⟩

theorem suffix_append_left {x l : List Char} (t : List Char) (h : x <:+ l) : x <:+ t ++ l :=
  h.trans (List.suffix_append t l)

theorem bodyEnd_suffix_merge (h2 b2 : List Char) :
    bodyEndIndicator <:+ mergeHeaderAndBody h2 (addHexBodyByteNotations b2) := by
  unfold mergeHeaderAndBody addHexBodyByteNotations
  exact suffix_append_left (h2 ++ doubleCRLF) (List.suffix_append _ _)

theorem not_dcrlf_suffix_of_bodyEnd {s : List Char} (h : bodyEndIndicator <:+ s) :
    ¬ (doubleCRLF <:+ s) := by
  intro hd
  have h5 : doubleCRLF <:+ bodyEndIndicator :=
    List.suffix_of_suffix_length_le hd h (by decide)
  revert h5
  decide

theorem respChunkWrapPath_block {req : Request} (hpath : respChunkWrapPath req = true) :
    ∃ h2 b2, processHTTPRespBlock req =
      some (mergeHeaderAndBody h2 (addHexBodyByteNotations b2) ++ crlf) := by
  cases hd : req.dumpedResp with
  | none => simp [respChunkWrapPath, hd] at hpath
  | some b =>
    simp only [respChunkWrapPath, hd] at hpath
    cases hp : (if req.previewSet then parsePreviewBodyBytes b req.PreviewBytes else some b) with
    | none => rw [hp] at hpath; simp at hpath
    | some s1 =>
      rw [hp] at hpath
      simp only [Bool.and_eq_true, Bool.not_eq_true'] at hpath
      obtain ⟨hchunk, hsplit⟩ := hpath
      obtain ⟨⟨h2, b2⟩, hsb⟩ := Option.isSome_iff_exists.mp hsplit
      refine ⟨h2, b2, ?_⟩
      simp only [processHTTPRespBlock, hd, hp, Option.bind_eq_bind, Option.some_bind,
        hchunk, Bool.false_eq_true, if_false, hsb]
      have hne : mergeHeaderAndBody h2 (addHexBodyByteNotations b2) ≠ [] := by
        unfold mergeHeaderAndBody
        simp [doubleCRLF]
      have hnd : ¬ (doubleCRLF <:+ mergeHeaderAndBody h2 (addHexBodyByteNotations b2)) :=
        not_dcrlf_suffix_of_bodyEnd (bodyEnd_suffix_merge h2 b2)
      simp [hne, hnd]

theorem addFullBody_tail {r : List Char} (h : "\r\n0\r\n\r\n".data <:+ r) :
    "0; ieof\r\n\r\n".data <:+ addFullBodyInPreviewIndicator r := by
  obtain ⟨t, ht⟩ := h
  have hr : r = (t ++ "\r\n0".data) ++ doubleCRLF := by
    rw [List.append_assoc]
    exact ht.symm
  unfold addFullBodyInPreviewIndicator trimSuffixDCRLF
  rw [hr, if_pos (List.suffix_append _ _)]
  have hlen : ((t ++ "\r\n0".data) ++ doubleCRLF).length - 4 = (t ++ "\r\n0".data).length := by
    simp [List.length_append, doubleCRLF]
  rw [hlen, List.take_left]
  refine ⟨t ++ "\r\n".data, ?_⟩
  rw [List.append_assoc, List.append_assoc]
  rfl

theorem mergeCRLF_tail (h2 b2 : List Char) :
    "\r\n0\r\n\r\n".data <:+ mergeHeaderAndBody h2 (addHexBodyByteNotations b2) ++ crlf := by
  obtain ⟨t, ht⟩ := bodyEnd_suffix_merge h2 b2
  refine ⟨t, ?_⟩
  rw [← ht, List.append_assoc]
  rfl

/-- C2 (amended): for every request with `previewSet` whose response block
goes through the standard chunk-wrapping path, the wire bytes of
`toICAPMessage` end in `0; ieof\r\n\r\n` when the body fitted in the preview,
and in `0\r\n\r\n` without any `ieof` token when it did not.  (Without the
chunk-wrapping hypothesis the claim fails, see the counterexample.) -/
theorem toICAPMessage_preview_tail (req : Request) (w : List Char)
    (hw : toICAPMessage req = some w) (hps : req.previewSet = true)
    (hpath : respChunkWrapPath req = true) :
    (req.bodyFittedInPreview = true → "0; ieof\r\n\r\n".data <:+ w) ∧
    (req.bodyFittedInPreview = false →
      ("0\r\n\r\n".data <:+ w ∧ ¬ ("; ieof\r\n\r\n".data <:+ w))) := by
  obtain ⟨h2, b2, hresp⟩ := respChunkWrapPath_block hpath
  cases hq : processHTTPReqBlock req with
  | none =>
    rw [toICAPMessage, hq] at hw
    simp at hw
  | some q =>
    rw [toICAPMessage, hq, hresp] at hw
    simp only [Option.bind_eq_bind, Option.some_bind, Option.pure_def, Option.some.injEq] at hw
    set r := mergeHeaderAndBody h2 (addHexBodyByteNotations b2) ++ crlf with hrdef
    have hrne : r ≠ [] := by
      rw [hrdef]
      intro hcontra
      have := List.append_eq_nil.mp hcontra
      exact absurd this.2 (by simp [crlf])
    have htail7 : "\r\n0\r\n\r\n".data <:+ r := mergeCRLF_tail h2 b2
    constructor
    · intro hfit
      rw [← hw]
      simp only [hrne, hps, hfit, ne_eq, not_false_iff, and_self, if_true, true_and]
      exact suffix_append_left _ (addFullBody_tail htail7)
    · intro hfit
      rw [← hw]
      simp only [hps, hfit, and_false, if_false, Bool.false_eq_true, false_and, and_false]
      constructor
      · exact suffix_append_left _ (List.IsSuffix.trans (by decide) htail7)
      · intro hieof
        have h10 : "\r\n0\r\n\r\n".data <:+ "; ieof\r\n\r\n".data :=
          List.suffix_of_suffix_length_le (suffix_append_left _ htail7) hieof (by decide)
        revert h10
        decide

/-- C2 witness: on `sampleFittedReq` the theorem applies and the produced wire
bytes end with `0; ieof\r\n\r\n`. -/
theorem toICAPMessage_preview_tail_witness :
    "0; ieof\r\n\r\n".data <:+ (toICAPMessage sampleFittedReq).getD [] :=
  (toICAPMessage_preview_tail sampleFittedReq ((toICAPMessage sampleFittedReq).getD [])
    (by decide) (by decide) (by decide)).1 (by decide)

/-- C2 counterexample: `cexPreviewReq` has `previewSet` and
`bodyFittedInPreview`, yet its wire bytes end with `t; ieof\r\n\r\n` (the
headers-only dump never went through chunk wrapping, so no `0` precedes the
`ieof` token), refuting the claim as stated for every request. -/
theorem toICAPMessage_preview_tail_cex :
    cexPreviewReq.previewSet = true ∧ cexPreviewReq.bodyFittedInPreview = true ∧
    toICAPMessage cexPreviewReq = some ((toICAPMessage cexPreviewReq).getD []) ∧
    ¬ ("0; ieof\r\n\r\n".data <:+ (toICAPMessage cexPreviewReq).getD []) :=
  ⟨rfl, rfl, by decide, by decide⟩

theorem revCRLFRun_pos : ∀ x : List Char, 1 ≤ (revCRLFRun x).1 →
    ∃ y, x = '\n' :: '\r' :: y := by
  intro x
  match x with
  | [] => intro h; simp [revCRLFRun] at h
  | [c] => intro h; simp [revCRLFRun] at h
  | c1 :: c2 :: rest =>
    intro h
    by_cases hc : c1 = '\n' ∧ c2 = '\r'
    · exact ⟨rest, by rw [hc.1, hc.2]⟩
    · rw [revCRLFRun, if_neg hc] at h
      simp at h

theorem crlf_suffix_of_chunkEnd {bb : List Char} (h : chunkEndPattern bb = true) :
    crlf <:+ bb := by
  unfold chunkEndPattern at h
  simp only [Bool.and_eq_true, decide_eq_true_eq] at h
  obtain ⟨y, hy⟩ := revCRLFRun_pos bb.reverse h.1
  have : crlf.reverse <+: bb.reverse := ⟨y, by rw [hy]; rfl⟩
  have h2 := List.reverse_prefix.mp (by simpa using this)
  simpa using h2

theorem crlf_suffix_of_chunked {s : List Char} (h : bodyAlreadyChunked s = true) :
    crlf <:+ s := by
  unfold bodyAlreadyChunked at h
  cases hsb : splitBodyAndHeader s with
  | none => rw [hsb] at h; simp at h
  | some p =>
    obtain ⟨hh, bb⟩ := p
    rw [hsb] at h
    obtain ⟨hm, _⟩ := splitBodyAndHeader_eq hsb
    rw [hm]
    exact suffix_append_left _ (crlf_suffix_of_chunkEnd h)

theorem crlf_suffix_addHex (s : List Char) : crlf <:+ addHexBodyByteNotations s := by
  unfold addHexBodyByteNotations
  exact suffix_append_left _ (List.IsSuffix.trans (by decide) (List.suffix_refl bodyEndIndicator))

theorem dcrlf_suffix_append_crlf {s : List Char} (h : crlf <:+ s) :
    doubleCRLF <:+ s ++ crlf := by
  obtain ⟨t, ht⟩ := h
  refine ⟨t, ?_⟩
  rw [← ht, List.append_assoc]
  rfl

/-- C3: `Client.Do` issues a second `Send` iff the first response has status
code 100 and the request has `previewSet` and not `bodyFittedInPreview`; the
bytes of that flight are `remainingPreviewBytes`, hex-chunk-wrapped when not
already chunked, with exactly one `\r\n` appended when the result does not
already end with `\r\n\r\n`; and the second flight always ends `\r\n\r\n`. -/
theorem clientDo_second_flight (req : Request) (code : Int) :
    ((clientDoSecondFlight req code).isSome ↔
      (code = 100 ∧ req.previewSet = true ∧ req.bodyFittedInPreview = false)) ∧
    (∀ d, clientDoSecondFlight req code = some d →
      d = (let w := if bodyAlreadyChunked req.remainingPreviewBytes
              then req.remainingPreviewBytes
              else addHexBodyByteNotations req.remainingPreviewBytes
           if doubleCRLF <:+ w then w else w ++ crlf) ∧
      doubleCRLF <:+ d) := by
  by_cases hc : code = 100 ∧ req.bodyFittedInPreview = false ∧ req.previewSet = true
  · have hval : clientDoSecondFlight req code =
        some (if doubleCRLF <:+ (if bodyAlreadyChunked req.remainingPreviewBytes
                then req.remainingPreviewBytes
                else addHexBodyByteNotations req.remainingPreviewBytes)
              then (if bodyAlreadyChunked req.remainingPreviewBytes
                then req.remainingPreviewBytes
                else addHexBodyByteNotations req.remainingPreviewBytes)
              else (if bodyAlreadyChunked req.remainingPreviewBytes
                then req.remainingPreviewBytes
                else addHexBodyByteNotations req.remainingPreviewBytes) ++ crlf) := by
      simp only [clientDoSecondFlight]
      rw [if_neg (not_not_intro hc)]
    refine ⟨?_, ?_⟩
    · rw [hval]
      simp only [Option.isSome_some, true_iff]
      exact ⟨hc.1, hc.2.2, hc.2.1⟩
    · intro d hd
      rw [hval] at hd
      obtain rfl := Option.some.inj hd
      refine ⟨rfl, ?_⟩
      by_cases hsuf : doubleCRLF <:+
          (if bodyAlreadyChunked req.remainingPreviewBytes
            then req.remainingPreviewBytes
            else addHexBodyByteNotations req.remainingPreviewBytes)
      · rw [if_pos hsuf]
        exact hsuf
      · rw [if_neg hsuf]
        apply dcrlf_suffix_append_crlf
        by_cases hch : bodyAlreadyChunked req.remainingPreviewBytes
        · rw [if_pos hch]
          exact crlf_suffix_of_chunked hch
        · rw [if_neg hch]
          exact crlf_suffix_addHex _
  · have hval : clientDoSecondFlight req code = none := by
      simp only [clientDoSecondFlight]
      rw [if_pos hc]
    refine ⟨?_, ?_⟩
    · rw [hval]
      simp only [Option.isSome_none, Bool.false_eq_true, false_iff]
      intro hcon
      exact hc ⟨hcon.1, hcon.2.2, hcon.2.1⟩
    · intro d hd
      rw [hval] at hd
      exact absurd hd (by simp)

/-- C3 witness: with a 100 Continue first response, `sampleContinueReq` gets a
second flight and its bytes end with `\r\n\r\n`. -/
theorem clientDo_second_flight_witness :
    doubleCRLF <:+ (clientDoSecondFlight sampleContinueReq 100).getD [] :=
  ((clientDo_second_flight sampleContinueReq 100).2
    ((clientDoSecondFlight sampleContinueReq 100).getD []) (by decide)).2

/-- C4: after appending a non-empty chunk, the read loop stops (returning the
accumulated bytes) exactly when the buffer equals `ICAP/1.0 100 Continue\r\n\r\n`,
ends with `0\r\n\r\n`, or contains `ICAP/1.0 204 Unmodified`; otherwise it
keeps reading; in particular, on a bare 100 Continue reply the loop returns it
without consuming any further chunk. -/
theorem connReadLoop_stops (data chunk : List Char) (rest : List (List Char))
    (hne : chunk ≠ []) :
    ((data ++ chunk = icap100ContinueMsg ∨ "0\r\n\r\n".data <:+ data ++ chunk ∨
        icap204NoModsMsg <:+: data ++ chunk) →
      connReadLoop data (chunk :: rest) = data ++ chunk) ∧
    (¬(data ++ chunk = icap100ContinueMsg ∨ "0\r\n\r\n".data <:+ data ++ chunk ∨
        icap204NoModsMsg <:+: data ++ chunk) →
      connReadLoop data (chunk :: rest) = connReadLoop (data ++ chunk) rest) ∧
    connReadLoop [] (icap100ContinueMsg :: rest) = icap100ContinueMsg := by
  refine ⟨?_, ?_, ?_⟩
  · intro hstop
    rw [connReadLoop, if_neg hne]
    by_cases h1 : data ++ chunk = icap100ContinueMsg
    · simp [h1]
    · rw [if_neg h1]
      by_cases h2 : "0\r\n\r\n".data <:+ data ++ chunk
      · simp [h2]
      · rw [if_neg h2]
        by_cases h3 : icap204NoModsMsg <:+: data ++ chunk
        · simp [h3]
        · exact absurd hstop (by simp [h1, h2, h3])
  · intro hgo
    push_neg at hgo
    rw [connReadLoop, if_neg hne, if_neg hgo.1, if_neg hgo.2.1, if_neg hgo.2.2]
  · have hne100 : icap100ContinueMsg ≠ ([] : List Char) := by decide
    rw [connReadLoop, if_neg hne100]
    simp

/-- C4 witness: a bare `ICAP/1.0 100 Continue\r\n\r\n` reply is returned as
soon as it is read, even though more chunks would be available. -/
theorem connReadLoop_stops_witness :
    connReadLoop [] (icap100ContinueMsg :: ["XYZ".data]) = icap100ContinueMsg :=
  (connReadLoop_stops [] icap100ContinueMsg ["XYZ".data] (by decide)).2.2

/-- C8: a line classified as a start line (it contains `ICAP/1.0` or
`HTTP/1.1`) that splits into fewer than three space-separated tokens makes
the parse fail with the error wrapping `ErrInvalidTCPMsg` and no response:
the step on such a line errors for every state, hence so do the loop and
`readResponse` whenever the walk reaches the line. -/
theorem readResponse_invalid_start_line (g : HTTPOracles) (line : List Char)
    (rest : List (List Char)) (st : RRState)
    (hreq : isRequestLine line = true) (hlen : (splitOnSpace line).length < 3) :
    (∀ be, rrStep g line be st = .error (.invalidTCPMsg line)) ∧
    rrLoop g (line :: rest) st = .error (.invalidTCPMsg line) ∧
    (∀ data, splitAfterNL data = line :: rest →
      readResponse g data = .error (.invalidTCPMsg line)) := by
  have hstep : ∀ (be : Bool) (st0 : RRState),
      rrStep g line be st0 = .error (.invalidTCPMsg line) := by
    intro be st0
    simp only [rrStep, hreq, if_true, hlen, if_pos]
  refine ⟨fun be => hstep be st, ?_, ?_⟩
  · rw [rrLoop, hstep]
  · intro data hdata
    unfold readResponse
    rw [hdata, rrLoop, hstep]

/-- C8 witness: the stream opening with the short start line
`ICAP/1.0 200\r\n` makes `readResponse` fail with the invalid-tcp-message
error. -/
theorem readResponse_invalid_start_line_witness :
    readResponse { reqOK := fun _ => true, respOK := fun _ => true } "ICAP/1.0 200\r\n".data
      = .error (.invalidTCPMsg "ICAP/1.0 200\r\n".data) :=
  (readResponse_invalid_start_line { reqOK := fun _ => true, respOK := fun _ => true }
    "ICAP/1.0 200\r\n".data [] initRRState (by decide) (by decide)).2.2
    "ICAP/1.0 200\r\n".data (by decide)

theorem rrSections_preview (g : HTTPOracles) (line : List Char) (be : Bool) (st : RRState)
    (hsch : st.scheme = .icap)
    (hnb : ¬(line = "\n".data ∨ line = crlf)) (hv : (getHeaderVal line).1 = "Preview".data) :
    rrSections g line be st = .ok { st with
      PreviewBytes := atoiOrZero (getHeaderVal line).2,
      Header := st.Header ++ [getHeaderVal line] } := by
  simp [rrSections, hsch, hnb, hv]

theorem rrSections_preview_unchanged (g : HTTPOracles) (line : List Char) (be : Bool)
    (st st2 : RRState) (h2 : rrSections g line be st = .ok st2)
    (hnv : (getHeaderVal line).1 ≠ "Preview".data) :
    st2.PreviewBytes = st.PreviewBytes := by
  unfold rrSections at h2
  split_ifs at h2
  all_goals try (by_cases hok : g.reqOK (st.httpMsg ++ (trimSpace line ++ crlf)) = true <;>
    simp [hok] at h2)
  all_goals try (by_cases hok : g.respOK (st.httpMsg ++ (trimSpace line ++ crlf)) = true <;>
    simp [hok] at h2)
  all_goals try (rw [← h2])
  all_goals simp_all

theorem rrStep_preview_unchanged (g : HTTPOracles) (line : List Char) (be : Bool)
    (st st2 : RRState) (h2 : rrStep g line be st = .ok st2)
    (hnv : (getHeaderVal line).1 ≠ "Preview".data) :
    st2.PreviewBytes = st.PreviewBytes := by
  unfold rrStep at h2
  by_cases hreq : isRequestLine line
  · simp only [hreq, if_true] at h2
    by_cases hlen : (splitOnSpace line).length < 3
    · simp [hlen] at h2
    · simp only [hlen, if_false] at h2
      by_cases hicap : (splitOnSpace line).getD 0 [] = icapVersion
      · simp only [hicap, if_true] at h2
        cases hgs : getStatusWithCode ((splitOnSpace line).getD 1 [])
            (List.intercalate [' '] ((splitOnSpace line).drop 2)) with
        | error e => rw [hgs] at h2; simp at h2
        | ok cs =>
          rw [hgs] at h2
          simp only [Except.ok.injEq] at h2
          rw [← h2]
      · simp only [hicap, if_false] at h2
        have hrec := rrSections_preview_unchanged g line be _ st2 h2 hnv
        rw [hrec]
        split <;> split <;> rfl
  · simp only [hreq, Bool.false_eq_true, if_false] at h2
    exact rrSections_preview_unchanged g line be st st2 h2 hnv

/-- C9 (amended): `readResponse` receives no input describing which request
the server answers; its ICAP-section step sets `PreviewBytes` to the integer
value of a `Preview` header whenever it processes one — on replies to any
method — and every other successful step leaves `PreviewBytes` unchanged. -/
theorem preview_bytes_rule (g : HTTPOracles) (line : List Char) (be : Bool) (st : RRState) :
    (st.scheme = .icap → isRequestLine line = false →
      ¬(line = "\n".data ∨ line = crlf) → (getHeaderVal line).1 = "Preview".data →
      rrStep g line be st = .ok { st with
        PreviewBytes := atoiOrZero (getHeaderVal line).2,
        Header := st.Header ++ [getHeaderVal line] }) ∧
    (∀ st2, rrStep g line be st = .ok st2 → (getHeaderVal line).1 ≠ "Preview".data →
      st2.PreviewBytes = st.PreviewBytes) := by
  constructor
  · intro hsch hnl hnb hv
    simp only [rrStep, hnl, Bool.false_eq_true, if_false]
    exact rrSections_preview g line be st hsch hnb hv
  · intro st2 h2 hnv
    exact rrStep_preview_unchanged g line be st st2 h2 hnv

/-- C9 witness: in the ICAP section, the line `Preview: 10\r\n` sets
`PreviewBytes` to 10. -/
theorem preview_bytes_rule_witness :
    rrStep { reqOK := fun _ => true, respOK := fun _ => true } "Preview: 10\r\n".data true
      { initRRState with scheme := .icap }
      = .ok { initRRState with scheme := .icap, PreviewBytes := 10, Header := [("Preview".data, "10".data)] } := by
  have h := (preview_bytes_rule { reqOK := fun _ => true, respOK := fun _ => true }
    "Preview: 10\r\n".data true { initRRState with scheme := .icap }).1
    rfl (by decide) (by decide) (by decide)
  rw [h]
  decide

/-- C9 counterexample: a 200 REQMOD-style reply (plainly not an OPTIONS
negotiation) carrying `Preview: 10` parses with `PreviewBytes = 10`, not 0 —
the parser never consults the request method. -/
theorem preview_bytes_cex :
    (readResponse { reqOK := fun _ => true, respOK := fun _ => true }
      "ICAP/1.0 200 OK\r\nEncapsulated: req-hdr=0, null-body=0\r\nPreview: 10\r\n\r\n".data).toOption.map
        (fun st => st.PreviewBytes) = some 10 ∧ (10 : Int) ≠ 0 :=
  ⟨by decide, by decide⟩

/-- C10: on a connection whose `Connect` never succeeded the socket is unset,
`Send` and `Close` return `EINVAL` whatever the transport would have produced
(so without performing any I/O), and a failing `Connect` leaves the socket
unset. -/
theorem conn_nil_socket_einval :
    NewICAPConn.tcp = none ∧
    (∀ exchange, ICAPConn.Send NewICAPConn exchange = .error .einval) ∧
    (∀ closeResult, ICAPConn.Close NewICAPConn closeResult = .error .einval) ∧
    (∀ (c : ICAPConn) (e : ConnErr),
      (ICAPConn.Connect c (.error e)).1 = c ∧ (ICAPConn.Connect c (.error e)).2 = some e) := by
  refine ⟨rfl, fun exchange => rfl, fun closeResult => rfl, fun c e => ⟨rfl, rfl⟩⟩

end IcapClient

